import Mathlib

/-!
Shallow embedding of `src/dns_cache.c` (smartdns DNS cache engine).

The C module keeps a process-wide table of cache entries, reachable through a
hash index and a doubly linked recency list, with a per-entry reference count.
We model the table state explicitly and pass wall-clock time (`time(&now)` in
the C code) as an explicit `now : Int` argument.  Entry memory is modelled by
the association list `store`: an entry is allocated iff its id is a key of
`store`, and `free` removes the binding.  Hash-table membership is the id list
`hashIds` (buckets are collapsed to one list; `hash_add` is `hlist_add_head`,
so new ids are prepended, and lookup filters by full key match, which is
observationally equivalent to per-bucket chains).  The recency list
`cache_list` is the id list `order`, head (oldest) first; an entry is
list-linked iff its id occurs in `order` (`list_del_init` makes `list_empty`
true for the node, i.e. removes it from `order`).

Numeric constants come from the repository's headers (not under `src/`):
`DNS_MAX_CNAME_LEN = 256`, `DNS_RR_A_LEN = 4`, `DNS_RR_AAAA_LEN = 16`; the
`dns_type_t` codes are the standard DNS RR type numbers.  Only their
distinctness and the sizes matter to the code.  C strings are byte lists;
`strncpy`/`strncmp` with bound `DNS_MAX_CNAME_LEN` become `List.take`
truncation and comparison of the truncations.  `time_t`/`int` arithmetic is
modelled on unbounded `Int`.
-/

def DNS_MAX_CNAME_LEN : Nat := 256
def DNS_RR_A_LEN : Nat := 4
def DNS_RR_AAAA_LEN : Nat := 16
def DNS_T_A : Nat := 1
def DNS_T_AAAA : Nat := 28

/-- One `struct dns_cache` entry: key fields, payload, refcount, timestamp. -/
structure DnsCacheEntry where
  domain : List Nat
  qtype : Nat
  ttl : Int
  ref : Int
  insert_time : Int
  addr : List Nat
deriving DecidableEq

/-- `struct dns_cache_head` plus the entry heap: `store` maps allocated entry
ids to their contents, `hashIds` is hash-table membership (most recently added
first), `order` is the recency list (oldest at the head), `num`/`size` as in
the C struct, `nextId` a fresh-id counter standing for `malloc` addresses. -/
structure DnsCacheHead where
  store : List (Nat × DnsCacheEntry)
  hashIds : List Nat
  order : List Nat
  num : Int
  size : Int
  nextId : Nat
deriving DecidableEq

/-- Dereference an entry id in the heap (first binding wins). -/
def storeFind : List (Nat × DnsCacheEntry) → Nat → Option DnsCacheEntry
  | [], _ => none
  | (k, e) :: rest, id => if k = id then some e else storeFind rest id

/-- Write through an entry pointer: replace the binding for `id` (never
inserts a fresh binding). -/
def storeUpdate : List (Nat × DnsCacheEntry) → Nat → DnsCacheEntry → List (Nat × DnsCacheEntry)
  | [], _, _ => []
  | (k, e) :: rest, id, e' =>
    if k = id then (id, e') :: storeUpdate rest id e' else (k, e) :: storeUpdate rest id e'

/-- `free(dns_cache)`: drop the binding for `id` from the heap. -/
def storeFree : List (Nat × DnsCacheEntry) → Nat → List (Nat × DnsCacheEntry)
  | [], _ => []
  | (k, e) :: rest, id => if k = id then storeFree rest id else (k, e) :: storeFree rest id

/-- `hash_del` / `list_del_init`: remove the (unique) occurrence of `id`. -/
def removeId : List Nat → Nat → List Nat
  | [], _ => []
  | k :: rest, id => if k = id then rest else k :: removeId rest id

/-- `hash_for_each_possible` loop body of `dns_cache_get` (lines 131-143):
walk the bucket, skip entries whose `qtype` differs or whose stored domain
does not match the query under `strncmp(..., DNS_MAX_CNAME_LEN)`. -/
def hashFind (store : List (Nat × DnsCacheEntry)) :
    List Nat → List Nat → Nat → Option Nat
  | [], _, _ => none
  | id :: rest, domain, qtype =>
    match storeFind store id with
    | none => hashFind store rest domain qtype
    | some e =>
      if e.qtype ≠ qtype then hashFind store rest domain qtype
      else if List.take DNS_MAX_CNAME_LEN domain ≠ e.domain then
        hashFind store rest domain qtype
      else some id

/-- `dns_cache_init` (lines 14-24). -/
def dns_cache_init (size : Int) : DnsCacheHead :=
  { store := [], hashIds := [], order := [], num := 0, size := size, nextId := 0 }

/-- `_dns_cache_delete` (lines 36-42): `hash_del`, `list_del_init`, `num--`,
`free` — unconditional, regardless of the refcount. -/
def dns_cache_delete_entry (id : Nat) (s : DnsCacheHead) : DnsCacheHead :=
  { s with hashIds := removeId s.hashIds id, order := removeId s.order id,
           num := s.num - 1, store := storeFree s.store id }

/-- `dns_cache_release` (lines 44-51): `atomic_dec_and_test`; reclaim only
when the count reaches zero. -/
def dns_cache_release (id : Nat) (s : DnsCacheHead) : DnsCacheHead :=
  match storeFind s.store id with
  | none => s
  | some e =>
    if e.ref - 1 = 0 then dns_cache_delete_entry id s
    else { s with store := storeUpdate s.store id { e with ref := e.ref - 1 } }

/-- `dns_cache_get` (lines 115-157): bucket scan, then lazy expiry — a stale
hit (`now - insert_time > ttl`) is deleted via `_dns_cache_delete` and
reported as a miss; a fresh hit gets `atomic_inc(&ref)` and is returned. -/
def dns_cache_get (domain : List Nat) (qtype : Nat) (now : Int) (s : DnsCacheHead) :
    Option Nat × DnsCacheHead :=
  if s.size ≤ 0 then (none, s)
  else
    match hashFind s.store s.hashIds domain qtype with
    | none => (none, s)
    | some id =>
      match storeFind s.store id with
      | none => (none, s)
      | some e =>
        if now - e.insert_time > e.ttl then (none, dns_cache_delete_entry id s)
        else (some id, { s with store := storeUpdate s.store id { e with ref := e.ref + 1 } })

/-- Lines 94-104 of `dns_cache_insert`: link the freshly filled entry into
hash and list tail, bump `num`, and on overflow release the list head. -/
def dns_cache_insert_link (domain : List Nat) (ttl : Int) (qtype : Nat)
    (storedAddr : List Nat) (now : Int) (s : DnsCacheHead) : Int × DnsCacheHead :=
  let e : DnsCacheEntry :=
    { domain := List.take DNS_MAX_CNAME_LEN domain, qtype := qtype, ttl := ttl,
      ref := 1, insert_time := now, addr := storedAddr }
  let s2 : DnsCacheHead :=
    { s with store := s.store ++ [(s.nextId, e)], hashIds := s.nextId :: s.hashIds,
             order := s.order ++ [s.nextId], num := s.num + 1, nextId := s.nextId + 1 }
  if s2.num > s2.size then
    match s2.order.head? with
    | some hd => (0, dns_cache_release hd s2)
    | none => (0, s2)
  else (0, s2)

/-- `dns_cache_insert` (lines 53-113).  Note the order of effects in the C
code: the duplicate check is a full `dns_cache_get` (which may lazily delete
a stale entry), a found duplicate is released and `0` returned, the domain is
`strncpy`-truncated with no length check, and address validation rejects a
wrong `addr_len` or an unsupported `qtype` with `-1` before any linking.
`malloc` is modelled as always succeeding. -/
def dns_cache_insert (domain : List Nat) (ttl : Int) (qtype : Nat) (addr : List Nat)
    (addr_len : Nat) (now : Int) (s : DnsCacheHead) : Int × DnsCacheHead :=
  if s.size ≤ 0 then (0, s)
  else
    match dns_cache_get domain qtype now s with
    | (some id, s1) => (0, dns_cache_release id s1)
    | (none, s1) =>
      if qtype = DNS_T_A then
        if addr_len ≠ DNS_RR_A_LEN then (-1, s1)
        else dns_cache_insert_link domain ttl qtype (List.take DNS_RR_A_LEN addr) now s1
      else if qtype = DNS_T_AAAA then
        if addr_len ≠ DNS_RR_AAAA_LEN then (-1, s1)
        else dns_cache_insert_link domain ttl qtype (List.take DNS_RR_AAAA_LEN addr) now s1
      else (-1, s1)

/-- `dns_cache_get_ttl` (lines 159-171). -/
def dns_cache_get_ttl (e : DnsCacheEntry) (now : Int) : Int :=
  let t := e.insert_time + e.ttl - now
  if t < 0 then 0 else t

/-- `dns_cache_delete` (lines 173-180): unconditional unlink from hash and
list, then a release of the table's own reference (note: no `num--` here; the
count drops only when the final release frees the entry). -/
def dns_cache_delete (id : Nat) (s : DnsCacheHead) : DnsCacheHead :=
  dns_cache_release id
    { s with hashIds := removeId s.hashIds id, order := removeId s.order id }

/-- `dns_cache_update` (lines 182-190): if the node is still list-linked,
move it to the recency-list tail; otherwise do nothing. -/
def dns_cache_update (id : Nat) (s : DnsCacheHead) : DnsCacheHead :=
  if id ∈ s.order then { s with order := removeId s.order id ++ [id] } else s

/-- `list_for_each_entry_safe` loop of `dns_cache_invalidate` (lines 205-215):
walk the recency list head-to-tail, stop at the first entry with
`insert_time + ttl - now > 0`, unlink (`hash_del`, `list_del_init`) and
release every entry seen before that. -/
def invalidateLoop (now : Int) : List Nat → DnsCacheHead → DnsCacheHead
  | [], s => s
  | id :: rest, s =>
    match storeFind s.store id with
    | none => s
    | some e =>
      if e.insert_time + e.ttl - now > 0 then s
      else invalidateLoop now rest
        (dns_cache_release id
          { s with hashIds := removeId s.hashIds id, order := removeId s.order id })

/-- `dns_cache_invalidate` (lines 192-217). -/
def dns_cache_invalidate (now : Int) (s : DnsCacheHead) : DnsCacheHead :=
  if s.size ≤ 0 then s else invalidateLoop now s.order s

/-- The entry built by a successful A-record insert from the input pair
`(domain, address)` (with `addr_len = DNS_RR_A_LEN`), as filled in by lines
75-84. -/
def mkEntry (p : List Nat × List Nat) (ttl now : Int) : DnsCacheEntry :=
  { domain := List.take DNS_MAX_CNAME_LEN p.1, qtype := DNS_T_A, ttl := ttl,
    ref := 1, insert_time := now, addr := List.take DNS_RR_A_LEN p.2 }

/-- The heap after a run of successful A-record inserts: consecutive ids
starting at `base`, one entry per input pair. -/
def canonStore (ks : List (List Nat × List Nat)) (ttl now : Int) (base : Nat) :
    List (Nat × DnsCacheEntry) :=
  match ks with
  | [] => []
  | p :: r => (base, mkEntry p ttl now) :: canonStore r ttl now (base + 1)

/-- The whole table state after the inputs `ks` have been inserted in order
into an empty table of capacity `c` with no eviction: ids `0..ks.length-1`,
recency list in insertion order, hash list most-recent-first. -/
def canonState (c : Int) (ks : List (List Nat × List Nat)) (ttl now : Int) : DnsCacheHead :=
  { store := canonStore ks ttl now 0,
    hashIds := (List.range ks.length).reverse,
    order := List.range ks.length,
    num := (ks.length : Int),
    size := c,
    nextId := ks.length }

/-- Driver folding a sequence of A-record inserts (each with
`addr_len = DNS_RR_A_LEN`, a fixed ttl and a fixed clock) over the table. -/
def insertAll (ttl now : Int) : List (List Nat × List Nat) → DnsCacheHead → DnsCacheHead
  | [], s => s
  | p :: r, s => insertAll ttl now r (dns_cache_insert p.1 ttl DNS_T_A p.2 4 now s).2

/-- The per-entry test of the sweep loop (line 207-210), as a Boolean on the
heap: an id is removed when `insert_time + ttl - now ≤ 0` (an id with no
entry never arises on the states the loop visits). -/
def expiredB (st : List (Nat × DnsCacheEntry)) (now : Int) (id : Nat) : Bool :=
  match storeFind st id with
  | some e => decide (e.insert_time + e.ttl - now ≤ 0)
  | none => false

/-! ### Association-list heap lemmas -/

theorem storeFind_mem {l : List (Nat × DnsCacheEntry)} {id : Nat} {e : DnsCacheEntry}
    (h : storeFind l id = some e) : (id, e) ∈ l := by
  induction l with
  | nil => simp [storeFind] at h
  | cons p rest ih =>
    obtain ⟨k, v⟩ := p
    rw [storeFind] at h
    split at h
    · next hk => cases h; exact hk ▸ List.mem_cons_self _ _
    · exact List.mem_cons_of_mem _ (ih h)

theorem storeFind_append_left {l l' : List (Nat × DnsCacheEntry)} {id : Nat}
    {e : DnsCacheEntry} (h : storeFind l id = some e) :
    storeFind (l ++ l') id = some e := by
  induction l with
  | nil => simp [storeFind] at h
  | cons p rest ih =>
    obtain ⟨k, v⟩ := p
    rw [storeFind] at h
    rw [List.cons_append, storeFind]
    split at h <;> split <;> simp_all

theorem storeFind_append_none {l l' : List (Nat × DnsCacheEntry)} {id : Nat}
    (h : storeFind l id = none) :
    storeFind (l ++ l') id = storeFind l' id := by
  induction l with
  | nil => simp
  | cons p rest ih =>
    obtain ⟨k, v⟩ := p
    rw [storeFind] at h
    rw [List.cons_append, storeFind]
    split at h <;> split <;> simp_all

theorem storeFind_update_self {l : List (Nat × DnsCacheEntry)} {id : Nat}
    {e : DnsCacheEntry} (e' : DnsCacheEntry) (h : storeFind l id = some e) :
    storeFind (storeUpdate l id e') id = some e' := by
  induction l with
  | nil => simp [storeFind] at h
  | cons p rest ih =>
    obtain ⟨k, v⟩ := p
    rw [storeFind] at h
    rw [storeUpdate]
    split at h <;> split <;> simp_all [storeFind]

theorem storeFind_update_ne {l : List (Nat × DnsCacheEntry)} {id id' : Nat}
    {e' : DnsCacheEntry} (h : id' ≠ id) :
    storeFind (storeUpdate l id e') id' = storeFind l id' := by
  induction l with
  | nil => simp [storeFind, storeUpdate]
  | cons p rest ih =>
    obtain ⟨k, v⟩ := p
    rw [storeUpdate]
    split
    · next hk =>
      rw [storeFind, if_neg (Ne.symm h), ih, storeFind, if_neg (by omega)]
    · rw [storeFind, storeFind, ih]

theorem storeFind_update_none {l : List (Nat × DnsCacheEntry)} {id : Nat}
    {e' : DnsCacheEntry} (h : storeFind l id = none) :
    storeFind (storeUpdate l id e') id = none := by
  induction l with
  | nil => simp [storeFind, storeUpdate]
  | cons p rest ih =>
    obtain ⟨k, v⟩ := p
    rw [storeFind] at h
    rw [storeUpdate]
    split at h
    · simp at h
    · rw [if_neg (by assumption), storeFind, if_neg (by assumption)]
      exact ih h

theorem storeUpdate_storeUpdate {l : List (Nat × DnsCacheEntry)} {id : Nat}
    {a b : DnsCacheEntry} :
    storeUpdate (storeUpdate l id a) id b = storeUpdate l id b := by
  induction l with
  | nil => simp [storeUpdate]
  | cons p rest ih =>
    obtain ⟨k, v⟩ := p
    rw [storeUpdate]
    split
    · rw [storeUpdate, if_pos rfl, storeUpdate, if_pos (by assumption), ih]
    · rw [storeUpdate, if_neg (by assumption), storeUpdate, if_neg (by assumption), ih]

theorem storeUpdate_of_find_none {l : List (Nat × DnsCacheEntry)} {id : Nat}
    {e' : DnsCacheEntry} (h : storeFind l id = none) : storeUpdate l id e' = l := by
  induction l with
  | nil => simp [storeUpdate]
  | cons p rest ih =>
    obtain ⟨k, v⟩ := p
    rw [storeFind] at h
    rw [storeUpdate]
    split at h
    · simp at h
    · rw [if_neg (by assumption), ih h]

theorem find_none_of_not_mem_keys {l : List (Nat × DnsCacheEntry)} {id : Nat}
    (h : id ∉ l.map Prod.fst) : storeFind l id = none := by
  induction l with
  | nil => simp [storeFind]
  | cons p rest ih =>
    obtain ⟨k, v⟩ := p
    simp only [List.map_cons, List.mem_cons] at h
    push_neg at h
    obtain ⟨h1, h2⟩ := h
    rw [storeFind, if_neg (by omega)]
    exact ih h2

theorem storeUpdate_self {l : List (Nat × DnsCacheEntry)} {id : Nat} {e : DnsCacheEntry}
    (hnd : (l.map Prod.fst).Nodup) (h : storeFind l id = some e) :
    storeUpdate l id e = l := by
  induction l with
  | nil => simp [storeFind] at h
  | cons p rest ih =>
    obtain ⟨k, v⟩ := p
    simp only [List.map_cons, List.nodup_cons] at hnd
    rw [storeFind] at h
    rw [storeUpdate]
    split at h
    · next hk =>
      cases h
      rw [if_pos hk, hk]
      rw [storeUpdate_of_find_none (find_none_of_not_mem_keys (hk ▸ hnd.1))]
    · next hk =>
      rw [if_neg hk, ih hnd.2 h]

theorem storeFind_free_self {l : List (Nat × DnsCacheEntry)} {id : Nat} :
    storeFind (storeFree l id) id = none := by
  induction l with
  | nil => simp [storeFind, storeFree]
  | cons p rest ih =>
    obtain ⟨k, v⟩ := p
    rw [storeFree]
    split
    · exact ih
    · rw [storeFind, if_neg (by assumption)]
      exact ih

theorem storeFind_free_ne {l : List (Nat × DnsCacheEntry)} {id id' : Nat} (h : id' ≠ id) :
    storeFind (storeFree l id) id' = storeFind l id' := by
  induction l with
  | nil => simp [storeFree]
  | cons p rest ih =>
    obtain ⟨k, v⟩ := p
    rw [storeFree]
    split
    · next hk => rw [ih, storeFind, if_neg (by omega)]
    · rw [storeFind, storeFind, ih]

/-! ### Recency-list / hash-membership list lemmas -/

theorem removeId_cons_self {l : List Nat} {a : Nat} : removeId (a :: l) a = l := by
  rw [removeId, if_pos rfl]

theorem removeId_sublist (l : List Nat) (a : Nat) : (removeId l a).Sublist l := by
  induction l with
  | nil => simp [removeId]
  | cons k rest ih =>
    rw [removeId]
    split
    · exact List.sublist_cons_self _ _
    · exact List.Sublist.cons₂ _ ih

theorem removeId_of_not_mem {l : List Nat} {a : Nat} (h : a ∉ l) : removeId l a = l := by
  induction l with
  | nil => rfl
  | cons k rest ih =>
    simp only [List.mem_cons] at h
    push_neg at h
    rw [removeId, if_neg (by omega), ih h.2]

theorem not_mem_removeId_self {l : List Nat} {a : Nat} (h : l.Nodup) :
    a ∉ removeId l a := by
  induction l with
  | nil => simp [removeId]
  | cons k rest ih =>
    rw [List.nodup_cons] at h
    rw [removeId]
    split
    · next hk => exact hk ▸ h.1
    · next hk =>
      intro hmem
      rcases List.mem_cons.mp hmem with h1 | h2
      · exact hk h1.symm
      · exact ih h.2 h2

theorem mem_removeId_of_ne {l : List Nat} {a b : Nat} (h : b ≠ a) :
    b ∈ removeId l a ↔ b ∈ l := by
  induction l with
  | nil => simp [removeId]
  | cons k rest ih =>
    rw [removeId]
    split
    · next hk =>
      subst hk
      constructor
      · exact fun hb => List.mem_cons_of_mem _ hb
      · intro hb
        rcases List.mem_cons.mp hb with h1 | h2
        · exact absurd h1 h
        · exact h2
    · simp [List.mem_cons, ih]

theorem removeId_append_of_not_mem {xs ys : List Nat} {a : Nat} (h : a ∉ xs) :
    removeId (xs ++ ys) a = xs ++ removeId ys a := by
  induction xs with
  | nil => simp
  | cons k rest ih =>
    simp only [List.mem_cons] at h
    push_neg at h
    rw [List.cons_append, removeId, if_neg (by omega), ih h.2, List.cons_append]

/-! ### Bucket-scan (`hashFind`) lemmas -/

theorem hashFind_none_of_domain {store : List (Nat × DnsCacheEntry)} {ids domain : List Nat}
    {qtype : Nat}
    (h : ∀ p ∈ store, List.take DNS_MAX_CNAME_LEN domain ≠ p.2.domain) :
    hashFind store ids domain qtype = none := by
  induction ids with
  | nil => rfl
  | cons id rest ih =>
    rcases hs : storeFind store id with _ | e
    · simp only [hashFind, hs]
      exact ih
    · have hd : List.take DNS_MAX_CNAME_LEN domain ≠ e.domain :=
        h (id, e) (storeFind_mem hs)
    -- fallthrough on either qtype mismatch or domain mismatch
      by_cases hq : e.qtype ≠ qtype
      · simp only [hashFind, hs, if_pos hq]
        exact ih
      · simp only [hashFind, hs, if_neg hq, if_pos hd]
        exact ih

theorem hashFind_isSome {store : List (Nat × DnsCacheEntry)} {ids domain : List Nat}
    {qtype id : Nat} {e : DnsCacheEntry}
    (hid : id ∈ ids) (he : storeFind store id = some e) (hq : e.qtype = qtype)
    (hd : List.take DNS_MAX_CNAME_LEN domain = e.domain) :
    (hashFind store ids domain qtype).isSome := by
  induction ids with
  | nil => simp at hid
  | cons id0 rest ih =>
    rcases List.mem_cons.mp hid with h0 | hrest
    · subst h0
      simp only [hashFind, he]
      rw [if_neg (not_not_intro hq), if_neg (not_not_intro hd)]
      rfl
    · rcases hs : storeFind store id0 with _ | e0
      · simp only [hashFind, hs]
        exact ih hrest
      · by_cases hq0 : e0.qtype ≠ qtype
        · simp only [hashFind, hs, if_pos hq0]
          exact ih hrest
        · by_cases hd0 : List.take DNS_MAX_CNAME_LEN domain ≠ e0.domain
          · simp only [hashFind, hs, if_neg hq0, if_pos hd0]
            exact ih hrest
          · simp only [hashFind, hs, if_neg hq0, if_neg hd0, Option.isSome_some]

theorem hashFind_some {store : List (Nat × DnsCacheEntry)} {ids domain : List Nat}
    {qtype id : Nat} (h : hashFind store ids domain qtype = some id) :
    id ∈ ids ∧ ∃ e, storeFind store id = some e ∧ e.qtype = qtype ∧
      List.take DNS_MAX_CNAME_LEN domain = e.domain := by
  induction ids with
  | nil => simp [hashFind] at h
  | cons id0 rest ih =>
    rcases hs : storeFind store id0 with _ | e0
    · rw [hashFind] at h
      rw [hs] at h
      obtain ⟨h1, h2⟩ := ih h
      exact ⟨List.mem_cons_of_mem _ h1, h2⟩
    · rw [hashFind] at h
      rw [hs] at h
      dsimp only at h
      by_cases hq0 : e0.qtype ≠ qtype
      · rw [if_pos hq0] at h
        obtain ⟨h1, h2⟩ := ih h
        exact ⟨List.mem_cons_of_mem _ h1, h2⟩
      · rw [if_neg hq0] at h
        by_cases hd0 : List.take DNS_MAX_CNAME_LEN domain ≠ e0.domain
        · rw [if_pos hd0] at h
          obtain ⟨h1, h2⟩ := ih h
          exact ⟨List.mem_cons_of_mem _ h1, h2⟩
        · rw [if_neg hd0] at h
          cases h
          push_neg at hq0 hd0
          exact ⟨List.mem_cons_self _ _, e0, hs, hq0, hd0⟩

/-! ### Claim theorems -/

/-- C9: for every entry handle and current time `now`, `dns_cache_get_ttl`
returns `max(0, inserted_at + ttl - now)`; it takes only the entry and the
clock and returns an integer, mutating neither the entry nor the table. -/
theorem C9_get_ttl_eq_max (e : DnsCacheEntry) (now : Int) :
    dns_cache_get_ttl e now = max 0 (e.insert_time + e.ttl - now) := by
  unfold dns_cache_get_ttl
  dsimp only
  split
  · rw [max_eq_left (by omega)]
  · rw [max_eq_right (by omega)]

/-- C1 (code bug, evaluated at the failing input): after `init(10)`,
`insert("a", ttl=1, A, [1,2,3,4])` at `t=0` and a `get("a", A)` at `t=0`
whose handle is still outstanding, the entry's refcount is 2; yet the
`get("a", A)` at `t=2`, which finds the entry stale, calls
`_dns_cache_delete` — not `dns_cache_release` — so the entry is freed (the
heap becomes empty) even though an outstanding handle held a reference.
This contradicts the claim that an entry with `refcount ≥ 1` due to a
caller handle is never freed by the stale-`get` path. -/
theorem C1_stale_get_frees_despite_outstanding_handle :
    (storeFind ((dns_cache_get [97] DNS_T_A 0
        ((dns_cache_insert [97] 1 DNS_T_A [1, 2, 3, 4] 4 0 (dns_cache_init 10)).2)).2).store
      0).map DnsCacheEntry.ref = some 2 ∧
    ((dns_cache_get [97] DNS_T_A 2
        ((dns_cache_get [97] DNS_T_A 0
          ((dns_cache_insert [97] 1 DNS_T_A [1, 2, 3, 4] 4 0 (dns_cache_init 10)).2)).2)).2).store
      = [] := by
  decide

/-- C2 (counterexample): with capacity 1, insert "a", take a `get` handle on
it (refcount 2), then insert "b".  The eviction path releases the list head,
but since the head's refcount is still positive nothing is unlinked and
`num` is not decremented: after the insert completes the live entry count is
2 > capacity 1, refuting the claim for sequences that include outstanding
`get` handles. -/
theorem C2_capacity_exceeded_with_outstanding_handle :
    ((dns_cache_insert [98] 10 DNS_T_A [5, 6, 7, 8] 4 0
        ((dns_cache_get [97] DNS_T_A 0
          ((dns_cache_insert [97] 10 DNS_T_A [1, 2, 3, 4] 4 0 (dns_cache_init 1)).2)).2)).2).num
      = 2 ∧
    ((dns_cache_insert [98] 10 DNS_T_A [5, 6, 7, 8] 4 0
        ((dns_cache_get [97] DNS_T_A 0
          ((dns_cache_insert [97] 10 DNS_T_A [1, 2, 3, 4] 4 0 (dns_cache_init 1)).2)).2)).2).size
      = 1 := by
  decide

/-- C4 (counterexample): `insert` never checks the domain length.  With a
257-byte domain (one more than `DNS_MAX_CNAME_LEN = 256`), a valid A-record
insert into a fresh `init(10)` table returns success (0), not a validation
error, and the cache state changes: the live count becomes 1. -/
theorem C4_long_domain_insert_succeeds :
    (dns_cache_insert (List.replicate 257 97) 5 DNS_T_A [1, 2, 3, 4] 4 0
      (dns_cache_init 10)).1 = 0 ∧
    ((dns_cache_insert (List.replicate 257 97) 5 DNS_T_A [1, 2, 3, 4] 4 0
      (dns_cache_init 10)).2).num = 1 := by
  decide

/-- C3: `dns_cache_get` never returns a handle to an entry that is expired at
the time of the call: whenever the result carries a handle `id`, the entry it
denotes (in the post-state heap) satisfies `now - inserted_at ≤ ttl`.  The
stale branch deletes the located entry and reports a miss instead, with no
dependence on any prior `dns_cache_invalidate` sweep. -/
theorem C3_get_never_returns_expired (domain : List Nat) (qtype : Nat) (now : Int)
    (s : DnsCacheHead) (id : Nat)
    (h : (dns_cache_get domain qtype now s).1 = some id) :
    ∃ e, storeFind ((dns_cache_get domain qtype now s).2).store id = some e ∧
      now - e.insert_time ≤ e.ttl := by
  by_cases hsz : s.size ≤ 0
  · simp only [dns_cache_get, if_pos hsz] at h
    simp at h
  · rcases hf : hashFind s.store s.hashIds domain qtype with _ | id'
    · simp only [dns_cache_get, if_neg hsz, hf] at h
      simp at h
    · rcases hs : storeFind s.store id' with _ | e
      · simp only [dns_cache_get, if_neg hsz, hf, hs] at h
        simp at h
      · by_cases hst : now - e.insert_time > e.ttl
        · simp only [dns_cache_get, if_neg hsz, hf, hs, if_pos hst] at h
          simp at h
        · simp only [dns_cache_get, if_neg hsz, hf, hs, if_neg hst] at h
          simp only [dns_cache_get, if_neg hsz, hf, hs, if_neg hst]
          have hid : id' = id := by simpa using h
          subst hid
          refine ⟨{ e with ref := e.ref + 1 }, ?_, ?_⟩
          · exact storeFind_update_self _ hs
          · dsimp only
            omega

/-- Witness for C3: a concrete fresh hit (age 3 of ttl 9) at which the
theorem applies. -/
theorem C3_get_never_returns_expired_witness :
    (dns_cache_get [97] DNS_T_A 3
      ((dns_cache_insert [97] 9 DNS_T_A [1, 2, 3, 4] 4 0 (dns_cache_init 5)).2)).1 = some 0 ∧
    ∃ e, storeFind ((dns_cache_get [97] DNS_T_A 3
      ((dns_cache_insert [97] 9 DNS_T_A [1, 2, 3, 4] 4 0 (dns_cache_init 5)).2)).2).store 0
        = some e ∧ 3 - e.insert_time ≤ e.ttl :=
  ⟨by decide, C3_get_never_returns_expired [97] DNS_T_A 3
    ((dns_cache_insert [97] 9 DNS_T_A [1, 2, 3, 4] 4 0 (dns_cache_init 5)).2) 0 (by decide)⟩

theorem length_removeId_of_mem {l : List Nat} {a : Nat} (h : a ∈ l) :
    l.length = (removeId l a).length + 1 := by
  induction l with
  | nil => simp at h
  | cons k rest ih =>
    rw [removeId]
    split
    · simp
    · next hk =>
      rcases List.mem_cons.mp h with h1 | h2
      · exact absurd h1.symm hk
      · simp only [List.length_cons, ih h2]

/-- C8: `dns_cache_update` touches only the recency-list position.  The heap
(`store`, hence every entry's `domain`, `record_type`, `ttl`, `address`,
`inserted_at` and so the expiry time `inserted_at + ttl`), the hash index,
`num` and `size` are untouched; a list-linked entry is moved to the list
tail, and on a non-linked entry the whole state is unchanged. -/
theorem C8_update_only_moves_list_position (id : Nat) (s : DnsCacheHead) :
    (dns_cache_update id s).store = s.store ∧
    (dns_cache_update id s).hashIds = s.hashIds ∧
    (dns_cache_update id s).num = s.num ∧
    (dns_cache_update id s).size = s.size ∧
    (id ∈ s.order → (dns_cache_update id s).order = removeId s.order id ++ [id]) ∧
    (id ∉ s.order → dns_cache_update id s = s) := by
  unfold dns_cache_update
  by_cases h : id ∈ s.order
  · rw [if_pos h]
    exact ⟨rfl, rfl, rfl, rfl, fun _ => rfl, fun hn => absurd h hn⟩
  · rw [if_neg h]
    exact ⟨rfl, rfl, rfl, rfl, fun hm => absurd hm h, fun _ => rfl⟩

/-- Witness for C8: on the two-entry table built by inserting "a" then "b",
touching entry 0 moves it behind entry 1 without changing the heap, and
touching the never-allocated id 5 changes nothing at all. -/
theorem C8_update_witness :
    (dns_cache_update 0
      ((dns_cache_insert [98] 7 DNS_T_A [5, 6, 7, 8] 4 0
        ((dns_cache_insert [97] 7 DNS_T_A [1, 2, 3, 4] 4 0 (dns_cache_init 5)).2)).2)).store =
      ((dns_cache_insert [98] 7 DNS_T_A [5, 6, 7, 8] 4 0
        ((dns_cache_insert [97] 7 DNS_T_A [1, 2, 3, 4] 4 0 (dns_cache_init 5)).2)).2).store ∧
    (dns_cache_update 0
      ((dns_cache_insert [98] 7 DNS_T_A [5, 6, 7, 8] 4 0
        ((dns_cache_insert [97] 7 DNS_T_A [1, 2, 3, 4] 4 0 (dns_cache_init 5)).2)).2)).order =
      removeId ((dns_cache_insert [98] 7 DNS_T_A [5, 6, 7, 8] 4 0
        ((dns_cache_insert [97] 7 DNS_T_A [1, 2, 3, 4] 4 0 (dns_cache_init 5)).2)).2).order 0
        ++ [0] ∧
    dns_cache_update 5
      ((dns_cache_insert [98] 7 DNS_T_A [5, 6, 7, 8] 4 0
        ((dns_cache_insert [97] 7 DNS_T_A [1, 2, 3, 4] 4 0 (dns_cache_init 5)).2)).2) =
      ((dns_cache_insert [98] 7 DNS_T_A [5, 6, 7, 8] 4 0
        ((dns_cache_insert [97] 7 DNS_T_A [1, 2, 3, 4] 4 0 (dns_cache_init 5)).2)).2) :=
  ⟨(C8_update_only_moves_list_position 0
      ((dns_cache_insert [98] 7 DNS_T_A [5, 6, 7, 8] 4 0
        ((dns_cache_insert [97] 7 DNS_T_A [1, 2, 3, 4] 4 0 (dns_cache_init 5)).2)).2)).1,
   (C8_update_only_moves_list_position 0
      ((dns_cache_insert [98] 7 DNS_T_A [5, 6, 7, 8] 4 0
        ((dns_cache_insert [97] 7 DNS_T_A [1, 2, 3, 4] 4 0 (dns_cache_init 5)).2)).2)).2.2.2.2.1
      (by decide),
   (C8_update_only_moves_list_position 5
      ((dns_cache_insert [98] 7 DNS_T_A [5, 6, 7, 8] 4 0
        ((dns_cache_insert [97] 7 DNS_T_A [1, 2, 3, 4] 4 0 (dns_cache_init 5)).2)).2)).2.2.2.2.2
      (by decide)⟩

/-- C4 (amended): `dns_cache_insert` does not validate the domain length.
For any domain longer than `DNS_MAX_CNAME_LEN`, a well-formed A-record insert
whose key is not yet cached succeeds (status 0) and links a new entry whose
stored domain is the strict `strncpy` truncation of the input (here stated
for states with room, so no eviction interferes). -/
theorem C4_long_domain_truncated_and_stored (domain : List Nat) (ttl : Int)
    (addr : List Nat) (now : Int) (s : DnsCacheHead)
    (hlong : DNS_MAX_CNAME_LEN < domain.length)
    (hsz : 0 < s.size)
    (hmiss : hashFind s.store s.hashIds domain DNS_T_A = none)
    (hcap : s.num + 1 ≤ s.size) :
    dns_cache_insert domain ttl DNS_T_A addr 4 now s =
      (0, { s with
            store := s.store ++ [(s.nextId,
              { domain := List.take DNS_MAX_CNAME_LEN domain, qtype := DNS_T_A, ttl := ttl,
                ref := 1, insert_time := now, addr := List.take DNS_RR_A_LEN addr })],
            hashIds := s.nextId :: s.hashIds,
            order := s.order ++ [s.nextId],
            num := s.num + 1, nextId := s.nextId + 1 }) ∧
    List.take DNS_MAX_CNAME_LEN domain ≠ domain := by
  constructor
  · have h4 : ¬((4 : Nat) ≠ DNS_RR_A_LEN) := by decide
    simp only [dns_cache_insert, dns_cache_get, if_neg (by omega : ¬s.size ≤ 0), hmiss,
      if_pos (rfl : DNS_T_A = DNS_T_A), if_neg h4, dns_cache_insert_link]
    rw [if_neg (by omega : ¬s.num + 1 > s.size)]
    simp
  · intro heq
    have := congrArg List.length heq
    rw [List.length_take] at this
    omega

/-- Witness for C4's amended theorem: the 257-byte domain from the
counterexample, inserted into a fresh `init(10)` table. -/
theorem C4_long_domain_truncated_witness :
    DNS_MAX_CNAME_LEN < (List.replicate 257 97).length ∧
    (dns_cache_insert (List.replicate 257 97) 5 DNS_T_A [1, 2, 3, 4] 4 0
        (dns_cache_init 10) =
      (0, { (dns_cache_init 10) with
            store := (dns_cache_init 10).store ++ [((dns_cache_init 10).nextId,
              { domain := List.take DNS_MAX_CNAME_LEN (List.replicate 257 97),
                qtype := DNS_T_A, ttl := 5, ref := 1, insert_time := 0,
                addr := List.take DNS_RR_A_LEN [1, 2, 3, 4] })],
            hashIds := (dns_cache_init 10).nextId :: (dns_cache_init 10).hashIds,
            order := (dns_cache_init 10).order ++ [(dns_cache_init 10).nextId],
            num := (dns_cache_init 10).num + 1, nextId := (dns_cache_init 10).nextId + 1 }) ∧
      List.take DNS_MAX_CNAME_LEN (List.replicate 257 97) ≠ List.replicate 257 97) :=
  ⟨by rw [List.length_replicate]; decide,
   C4_long_domain_truncated_and_stored (List.replicate 257 97) 5 [1, 2, 3, 4] 0
     (dns_cache_init 10) (by rw [List.length_replicate]; decide) (by decide) rfl (by decide)⟩

/-- Overflow handling of the linking step: when every list-reachable entry
has refcount 1, releasing the head on overflow really unlinks it, so the
count after linking stays within `size`. -/
theorem insert_link_num_le (domain : List Nat) (ttl : Int) (qtype : Nat)
    (storedAddr : List Nat) (now : Int) (s : DnsCacheHead)
    (hsz : 0 < s.size)
    (hnum : s.num = (s.order.length : Int))
    (hle : s.num ≤ s.size)
    (href : ∀ id ∈ s.order, (storeFind s.store id).map DnsCacheEntry.ref = some 1) :
    ((dns_cache_insert_link domain ttl qtype storedAddr now s).2).num ≤ s.size := by
  simp only [dns_cache_insert_link]
  by_cases hov : s.num + 1 > s.size
  · rw [if_pos hov]
    obtain ⟨h, t, horder⟩ : ∃ h t, s.order = h :: t := by
      cases ho : s.order with
      | nil => rw [ho] at hnum; simp at hnum; omega
      | cons h t => exact ⟨h, t, rfl⟩
    rw [horder, List.cons_append, List.head?_cons]
    have hrefh := href h (horder ▸ List.mem_cons_self h t)
    rcases hfe : storeFind s.store h with _ | eh
    · rw [hfe] at hrefh; simp at hrefh
    · rw [hfe] at hrefh
      simp only [Option.map_some', Option.some.injEq] at hrefh
      simp only [dns_cache_release, storeFind_append_left hfe,
        if_pos (by omega : eh.ref - 1 = 0), dns_cache_delete_entry]
      omega
  · rw [if_neg hov]
    dsimp only
    omega

/-- C2 (amended): starting from any well-formed table state in which every
entry reachable from the recency list has refcount exactly 1 (no caller
handle outstanding), any `dns_cache_insert` leaves the live entry count at
most the capacity.  (The counterexample shows the original claim fails as
soon as an outstanding `get` handle pins the would-be eviction victim: the
release drops only the table's unit and `num` stays above `size`.) -/
theorem C2_capacity_bound_without_outstanding_handles
    (domain : List Nat) (ttl : Int) (qtype : Nat) (addr : List Nat) (addr_len : Nat)
    (now : Int) (s : DnsCacheHead)
    (hnum : s.num = (s.order.length : Int))
    (hle : s.num ≤ s.size)
    (hnd : s.order.Nodup)
    (href : ∀ id ∈ s.order, (storeFind s.store id).map DnsCacheEntry.ref = some 1)
    (hhash : ∀ id ∈ s.hashIds, id ∈ s.order) :
    ((dns_cache_insert domain ttl qtype addr addr_len now s).2).num ≤ s.size := by
  by_cases hsz : s.size ≤ 0
  · simp only [dns_cache_insert, if_pos hsz]
    exact hle
  · rcases hf : hashFind s.store s.hashIds domain qtype with _ | id
    · -- miss: possibly links a fresh entry
      simp only [dns_cache_insert, if_neg hsz, dns_cache_get, hf]
      by_cases hqa : qtype = DNS_T_A
      · rw [if_pos hqa]
        by_cases hla : addr_len ≠ DNS_RR_A_LEN
        · rw [if_pos hla]
          exact hle
        · rw [if_neg hla]
          exact insert_link_num_le _ _ _ _ _ _ (by omega) hnum hle href
      · rw [if_neg hqa]
        by_cases hqb : qtype = DNS_T_AAAA
        · rw [if_pos hqb]
          by_cases hlb : addr_len ≠ DNS_RR_AAAA_LEN
          · rw [if_pos hlb]
            exact hle
          · rw [if_neg hlb]
            exact insert_link_num_le _ _ _ _ _ _ (by omega) hnum hle href
        · rw [if_neg hqb]
          exact hle
    · obtain ⟨hmem, e, hse, hq, hd⟩ := hashFind_some hf
      have idOrd : id ∈ s.order := hhash id hmem
      have he1 : e.ref = 1 := by
        have h0 := href id idOrd
        rw [hse] at h0
        simpa using h0
      by_cases hstale : now - e.insert_time > e.ttl
      · -- stale duplicate: get lazily deletes it, then a fresh entry links
        simp only [dns_cache_insert, if_neg hsz, dns_cache_get, hf, hse, if_pos hstale]
        have hnum1 : (dns_cache_delete_entry id s).num =
            (((dns_cache_delete_entry id s).order).length : Int) := by
          simp only [dns_cache_delete_entry]
          have := length_removeId_of_mem idOrd
          push_cast [this] at hnum ⊢
          omega
        have hle1 : (dns_cache_delete_entry id s).num ≤ (dns_cache_delete_entry id s).size := by
          simp only [dns_cache_delete_entry]
          omega
        have href1 : ∀ id' ∈ (dns_cache_delete_entry id s).order,
            (storeFind (dns_cache_delete_entry id s).store id').map DnsCacheEntry.ref
              = some 1 := by
          intro id' hid'
          simp only [dns_cache_delete_entry] at hid' ⊢
          have hne : id' ≠ id := by
            intro hcontra
            exact not_mem_removeId_self hnd (hcontra ▸ hid')
          rw [storeFind_free_ne hne]
          exact href id' ((removeId_sublist s.order id).mem hid')
        have hsz1 : 0 < (dns_cache_delete_entry id s).size := by
          simp only [dns_cache_delete_entry]
          omega
        have hnumle : (dns_cache_delete_entry id s).num ≤ s.size := by
          simp only [dns_cache_delete_entry]
          omega
        by_cases hqa : qtype = DNS_T_A
        · rw [if_pos hqa]
          by_cases hla : addr_len ≠ DNS_RR_A_LEN
          · rw [if_pos hla]
            exact hnumle
          · rw [if_neg hla]
            exact insert_link_num_le _ _ _ _ _ _ hsz1 hnum1 hle1 href1
        · rw [if_neg hqa]
          by_cases hqb : qtype = DNS_T_AAAA
          · rw [if_pos hqb]
            by_cases hlb : addr_len ≠ DNS_RR_AAAA_LEN
            · rw [if_pos hlb]
              exact hnumle
            · rw [if_neg hlb]
              exact insert_link_num_le _ _ _ _ _ _ hsz1 hnum1 hle1 href1
          · rw [if_neg hqb]
            exact hnumle
      · -- fresh duplicate: the no-op branch, refcount goes up then back down
        simp only [dns_cache_insert, if_neg hsz, dns_cache_get, hf, hse, if_neg hstale]
        simp only [dns_cache_release, storeFind_update_self { e with ref := e.ref + 1 } hse,
          if_neg (by dsimp only; omega : ¬({ e with ref := e.ref + 1 } : DnsCacheEntry).ref - 1 = 0)]
        exact hle

/-- Witness for C2's amended theorem: a full one-entry `init(1)` table with no
outstanding handle; inserting "b" evicts "a" and the count stays at 1. -/
theorem C2_capacity_bound_witness :
    ((dns_cache_insert [98] 10 DNS_T_A [5, 6, 7, 8] 4 0
      ((dns_cache_insert [97] 10 DNS_T_A [1, 2, 3, 4] 4 0 (dns_cache_init 1)).2)).2).num ≤
      ((dns_cache_insert [97] 10 DNS_T_A [1, 2, 3, 4] 4 0 (dns_cache_init 1)).2).size :=
  C2_capacity_bound_without_outstanding_handles [98] 10 DNS_T_A [5, 6, 7, 8] 4 0
    ((dns_cache_insert [97] 10 DNS_T_A [1, 2, 3, 4] 4 0 (dns_cache_init 1)).2)
    (by decide) (by decide) (by decide) (by decide) (by decide)

/-- C5: a second insert for a key that already has a live, fresh entry is a
no-op reporting success — the returned status is 0 and the state, including
the stored entry and its address, is exactly unchanged (the refcount is
bumped by the internal `get` and dropped again by the release), and a
subsequent `get` still returns the original entry's handle. -/
theorem C5_duplicate_insert_noop (domain : List Nat) (ttl' : Int) (qtype : Nat)
    (addr : List Nat) (addr_len : Nat) (now : Int) (s : DnsCacheHead) (id : Nat)
    (e : DnsCacheEntry)
    (hsz : 0 < s.size)
    (hkeys : (s.store.map Prod.fst).Nodup)
    (hf : hashFind s.store s.hashIds domain qtype = some id)
    (hse : storeFind s.store id = some e)
    (hfresh : now - e.insert_time ≤ e.ttl)
    (href : 1 ≤ e.ref) :
    dns_cache_insert domain ttl' qtype addr addr_len now s = (0, s) ∧
    (dns_cache_get domain qtype now s).1 = some id := by
  constructor
  · simp only [dns_cache_insert, if_neg (by omega : ¬s.size ≤ 0), dns_cache_get, hf, hse,
      if_neg (by omega : ¬now - e.insert_time > e.ttl)]
    simp only [dns_cache_release, storeFind_update_self { e with ref := e.ref + 1 } hse,
      if_neg (by dsimp only; omega : ¬({ e with ref := e.ref + 1 } : DnsCacheEntry).ref - 1 = 0)]
    rw [storeUpdate_storeUpdate]
    have he2 : ({ e with ref := ({ e with ref := e.ref + 1 } : DnsCacheEntry).ref - 1 }
        : DnsCacheEntry) = e := by
      have h1 : ({ e with ref := e.ref + 1 } : DnsCacheEntry).ref - 1 = e.ref := by
        dsimp only
        omega
      rw [h1]
    rw [he2, storeUpdate_self hkeys hse]
  · simp only [dns_cache_get, if_neg (by omega : ¬s.size ≤ 0), hf, hse,
      if_neg (by omega : ¬now - e.insert_time > e.ttl)]

/-- Witness for C5: re-inserting "a" with a different ttl and address over a
live fresh entry leaves the table exactly as it was. -/
theorem C5_duplicate_insert_noop_witness :
    dns_cache_insert [97] 99 DNS_T_A [9, 9, 9, 9] 4 3
      ((dns_cache_insert [97] 10 DNS_T_A [1, 2, 3, 4] 4 0 (dns_cache_init 5)).2) =
      (0, (dns_cache_insert [97] 10 DNS_T_A [1, 2, 3, 4] 4 0 (dns_cache_init 5)).2) ∧
    (dns_cache_get [97] DNS_T_A 3
      ((dns_cache_insert [97] 10 DNS_T_A [1, 2, 3, 4] 4 0 (dns_cache_init 5)).2)).1 = some 0 :=
  C5_duplicate_insert_noop [97] 99 DNS_T_A [9, 9, 9, 9] 4 3
    ((dns_cache_insert [97] 10 DNS_T_A [1, 2, 3, 4] 4 0 (dns_cache_init 5)).2) 0
    { domain := [97], qtype := DNS_T_A, ttl := 10, ref := 1, insert_time := 0,
      addr := [1, 2, 3, 4] }
    (by decide) (by decide) (by decide) (by decide) (by decide) (by decide)

/-! ### Monotonicity of the sweep: it only ever removes ids -/

theorem release_hashIds_sublist (id : Nat) (s : DnsCacheHead) :
    ((dns_cache_release id s).hashIds).Sublist s.hashIds := by
  unfold dns_cache_release
  rcases storeFind s.store id with _ | e
  · exact List.Sublist.refl _
  · dsimp only
    split
    · exact removeId_sublist _ _
    · exact List.Sublist.refl _

theorem release_order_sublist (id : Nat) (s : DnsCacheHead) :
    ((dns_cache_release id s).order).Sublist s.order := by
  unfold dns_cache_release
  rcases storeFind s.store id with _ | e
  · exact List.Sublist.refl _
  · dsimp only
    split
    · exact removeId_sublist _ _
    · exact List.Sublist.refl _

theorem invalidateLoop_hashIds_sublist (now : Int) (ids : List Nat) (s : DnsCacheHead) :
    ((invalidateLoop now ids s).hashIds).Sublist s.hashIds := by
  induction ids generalizing s with
  | nil => exact List.Sublist.refl _
  | cons id rest ih =>
    rw [invalidateLoop]
    rcases storeFind s.store id with _ | e
    · exact List.Sublist.refl _
    · dsimp only
      split
      · exact List.Sublist.refl _
      · refine ((ih _).trans (release_hashIds_sublist _ _)).trans ?_
        exact removeId_sublist _ _

theorem invalidateLoop_order_sublist (now : Int) (ids : List Nat) (s : DnsCacheHead) :
    ((invalidateLoop now ids s).order).Sublist s.order := by
  induction ids generalizing s with
  | nil => exact List.Sublist.refl _
  | cons id rest ih =>
    rw [invalidateLoop]
    rcases storeFind s.store id with _ | e
    · exact List.Sublist.refl _
    · dsimp only
      split
      · exact List.Sublist.refl _
      · refine ((ih _).trans (release_order_sublist _ _)).trans ?_
        exact removeId_sublist _ _

/-- C10: at the exact freshness boundary (`now - inserted_at = ttl`, i.e.
remaining TTL 0) the two paths disagree by design of their comparisons:
`dns_cache_get` uses the strict test `now - insert_time > ttl`, so the entry
counts as fresh and a handle is returned; `dns_cache_invalidate` keeps only
entries with `insert_time + ttl - now > 0`, so the same entry at the same
instant is treated as expired and removed from both list and hash; and
`dns_cache_get_ttl` reports 0 remaining. -/
theorem C10_boundary_strict_get_nonstrict_sweep (d : List Nat) (qt : Nat) (now : Int)
    (s : DnsCacheHead) (id : Nat) (e : DnsCacheEntry) (tl : List Nat)
    (hsz : 0 < s.size)
    (hf : hashFind s.store s.hashIds d qt = some id)
    (hse : storeFind s.store id = some e)
    (hb : now - e.insert_time = e.ttl)
    (horder : s.order = id :: tl)
    (hnd : s.order.Nodup)
    (hh : s.hashIds.Nodup) :
    (dns_cache_get d qt now s).1 = some id ∧
    dns_cache_get_ttl e now = 0 ∧
    id ∉ (dns_cache_invalidate now s).order ∧
    id ∉ (dns_cache_invalidate now s).hashIds := by
  have hninv : dns_cache_invalidate now s =
      invalidateLoop now tl (dns_cache_release id
        { s with hashIds := removeId s.hashIds id, order := tl }) := by
    rw [dns_cache_invalidate, if_neg (by omega : ¬s.size ≤ 0), horder]
    simp only [invalidateLoop, hse]
    rw [if_neg (by omega : ¬e.insert_time + e.ttl - now > 0)]
    rw [horder, removeId_cons_self]
  have hidtl : id ∉ tl := (List.nodup_cons.mp (horder ▸ hnd)).1
  refine ⟨?_, ?_, ?_, ?_⟩
  · simp only [dns_cache_get, if_neg (by omega : ¬s.size ≤ 0), hf, hse,
      if_neg (by omega : ¬now - e.insert_time > e.ttl)]
  · unfold dns_cache_get_ttl
    dsimp only
    rw [if_neg (by omega)]
    omega
  · rw [hninv]
    intro hmem
    have h1 := (invalidateLoop_order_sublist now tl _).subset hmem
    have h2 := (release_order_sublist id _).subset h1
    exact hidtl h2
  · rw [hninv]
    intro hmem
    have h1 := (invalidateLoop_hashIds_sublist now tl _).subset hmem
    have h2 := (release_hashIds_sublist id _).subset h1
    exact not_mem_removeId_self hh h2

/-- Witness for C10: a single entry inserted at `t=0` with ttl 5, examined at
`t=5` (age exactly equal to ttl). -/
theorem C10_boundary_witness :
    (dns_cache_get [97] DNS_T_A 5
      ((dns_cache_insert [97] 5 DNS_T_A [1, 2, 3, 4] 4 0 (dns_cache_init 10)).2)).1 = some 0 ∧
    dns_cache_get_ttl
      { domain := [97], qtype := DNS_T_A, ttl := 5, ref := 1, insert_time := 0,
        addr := [1, 2, 3, 4] } 5 = 0 ∧
    0 ∉ (dns_cache_invalidate 5
      ((dns_cache_insert [97] 5 DNS_T_A [1, 2, 3, 4] 4 0 (dns_cache_init 10)).2)).order ∧
    0 ∉ (dns_cache_invalidate 5
      ((dns_cache_insert [97] 5 DNS_T_A [1, 2, 3, 4] 4 0 (dns_cache_init 10)).2)).hashIds :=
  C10_boundary_strict_get_nonstrict_sweep [97] DNS_T_A 5
    ((dns_cache_insert [97] 5 DNS_T_A [1, 2, 3, 4] 4 0 (dns_cache_init 10)).2) 0
    { domain := [97], qtype := DNS_T_A, ttl := 5, ref := 1, insert_time := 0,
      addr := [1, 2, 3, 4] } []
    (by decide) (by decide) (by decide) (by decide) (by decide) (by decide) (by decide)

/-! ### Canonical-state lemmas for insertion runs -/

theorem canonStore_find (ks : List (List Nat × List Nat)) (ttl now : Int) :
    ∀ (base i : Nat) (h : i < ks.length),
      storeFind (canonStore ks ttl now base) (base + i)
        = some (mkEntry (ks.get ⟨i, h⟩) ttl now) := by
  induction ks with
  | nil =>
    intro base i h
    simp at h
  | cons p r ih =>
    intro base i h
    cases i with
    | zero =>
      simp [canonStore, storeFind]
    | succ j =>
      have hj : j < r.length := by simpa using h
      have hb : base + (j + 1) = (base + 1) + j := by omega
      rw [canonStore]
      rw [storeFind, if_neg (by omega), hb]
      exact ih (base + 1) j hj

theorem canonStore_mem {ks : List (List Nat × List Nat)} {ttl now : Int} :
    ∀ {base : Nat} {p : Nat × DnsCacheEntry}, p ∈ canonStore ks ttl now base →
      ∃ q ∈ ks, p.2 = mkEntry q ttl now := by
  induction ks with
  | nil =>
    intro base p hp
    simp [canonStore] at hp
  | cons q r ih =>
    intro base p hp
    rw [canonStore] at hp
    rcases List.mem_cons.mp hp with h1 | h2
    · exact ⟨q, List.mem_cons_self _ _, by rw [h1]⟩
    · obtain ⟨q', hq', he⟩ := ih h2
      exact ⟨q', List.mem_cons_of_mem _ hq', he⟩

theorem canonStore_append (xs : List (List Nat × List Nat)) (y : List Nat × List Nat)
    (ttl now : Int) :
    ∀ base, canonStore (xs ++ [y]) ttl now base
      = canonStore xs ttl now base ++ [(base + xs.length, mkEntry y ttl now)] := by
  induction xs with
  | nil =>
    intro base
    simp [canonStore]
  | cons p r ih =>
    intro base
    rw [List.cons_append, canonStore, ih (base + 1), canonStore]
    simp only [List.cons_append, List.length_cons]
    rw [(by omega : base + 1 + r.length = base + (r.length + 1))]

theorem canonStore_free_lt (ks : List (List Nat × List Nat)) (ttl now : Int) :
    ∀ (base id : Nat), id < base →
      storeFree (canonStore ks ttl now base) id = canonStore ks ttl now base := by
  induction ks with
  | nil =>
    intro base id h
    rfl
  | cons p r ih =>
    intro base id h
    rw [canonStore, storeFree, if_neg (by omega), ih (base + 1) id (by omega)]

theorem canonStore_miss (ks : List (List Nat × List Nat)) (ttl now : Int) (base : Nat)
    (d : List Nat) (qt : Nat)
    (hmiss : List.take DNS_MAX_CNAME_LEN d
      ∉ ks.map (fun q => List.take DNS_MAX_CNAME_LEN q.1)) :
    ∀ ids, hashFind (canonStore ks ttl now base) ids d qt = none := by
  intro ids
  apply hashFind_none_of_domain
  intro p hp heq
  obtain ⟨q, hq, he⟩ := canonStore_mem hp
  rw [he] at heq
  exact hmiss (heq ▸ List.mem_map_of_mem (fun q => List.take DNS_MAX_CNAME_LEN q.1) hq)

theorem head_state_ext {a b : DnsCacheHead} (h1 : a.store = b.store)
    (h2 : a.hashIds = b.hashIds) (h3 : a.order = b.order) (h4 : a.num = b.num)
    (h5 : a.size = b.size) (h6 : a.nextId = b.nextId) : a = b := by
  cases a
  cases b
  simp_all

theorem storeFree_append (a b : List (Nat × DnsCacheEntry)) (id : Nat) :
    storeFree (a ++ b) id = storeFree a id ++ storeFree b id := by
  induction a with
  | nil => rfl
  | cons p rest ih =>
    obtain ⟨k, e⟩ := p
    rw [List.cons_append, storeFree, storeFree]
    split
    · exact ih
    · rw [List.cons_append, ih]

/-- An insert whose bucket scan misses, with a valid A record, reduces to the
linking step. -/
theorem insert_miss_A (domain : List Nat) (ttl : Int) (addr : List Nat) (now : Int)
    (s : DnsCacheHead) (hsz : 0 < s.size)
    (hmiss : hashFind s.store s.hashIds domain DNS_T_A = none) :
    dns_cache_insert domain ttl DNS_T_A addr 4 now s =
      dns_cache_insert_link domain ttl DNS_T_A (List.take DNS_RR_A_LEN addr) now s := by
  have h4 : ¬((4 : Nat) ≠ DNS_RR_A_LEN) := by decide
  simp only [dns_cache_insert, if_neg (by omega : ¬s.size ≤ 0), dns_cache_get, hmiss,
    if_pos (rfl : DNS_T_A = DNS_T_A), if_neg h4]
  simp

/-- One under-capacity insert extends the canonical state by one entry. -/
theorem insert_canon_step (c : Int) (done : List (List Nat × List Nat))
    (k : List Nat × List Nat) (ttl now : Int)
    (hsz : 0 < c)
    (hlt : (done.length : Int) + 1 ≤ c)
    (hmiss : List.take DNS_MAX_CNAME_LEN k.1
      ∉ done.map (fun q => List.take DNS_MAX_CNAME_LEN q.1)) :
    dns_cache_insert k.1 ttl DNS_T_A k.2 4 now (canonState c done ttl now)
      = (0, canonState c (done ++ [k]) ttl now) := by
  rw [insert_miss_A k.1 ttl k.2 now _ (by simpa [canonState] using hsz)
    (canonStore_miss done ttl now 0 k.1 DNS_T_A hmiss _)]
  simp only [dns_cache_insert_link, canonState]
  rw [if_neg (by omega : ¬((done.length : Int) + 1 > c))]
  simp only [Prod.mk.injEq, true_and]
  refine head_state_ext ?_ ?_ ?_ ?_ ?_ ?_ <;> dsimp only
  · rw [canonStore_append]
    simp [mkEntry]
  · simp [List.range_succ]
  · simp [List.range_succ]
  · simp only [List.length_append, List.length_singleton]
    push_cast
    omega
  · simp

theorem range_succ_append_head (n : Nat) (l : List Nat) :
    ((List.range (n + 1)) ++ l).head? = some 0 := by
  rw [List.range_succ_eq_map, List.cons_append, List.head?_cons]

/-- The `c+1`-st insert into a full canonical table: the new entry is linked
at the tail and the head entry (id 0, the very first insert) is released,
which — its refcount being 1 — unlinks and frees it. -/
theorem insert_canon_evict (c : Int) (d0 k : List Nat × List Nat)
    (done' : List (List Nat × List Nat)) (ttl now : Int)
    (hsz : 0 < c)
    (hlen : (done'.length : Int) + 1 = c)
    (hmiss : List.take DNS_MAX_CNAME_LEN k.1
      ∉ (d0 :: done').map (fun q => List.take DNS_MAX_CNAME_LEN q.1)) :
    dns_cache_insert k.1 ttl DNS_T_A k.2 4 now (canonState c (d0 :: done') ttl now)
      = (0, { store := canonStore (done' ++ [k]) ttl now 1,
              hashIds := (List.map Nat.succ (List.range (done'.length + 1))).reverse,
              order := List.map Nat.succ (List.range (done'.length + 1)),
              num := c, size := c, nextId := done'.length + 2 }) := by
  have hf0 : ∀ tail, storeFind (canonStore (d0 :: done') ttl now 0 ++ tail) 0
      = some (mkEntry d0 ttl now) := by
    intro tail
    apply storeFind_append_left
    rw [canonStore, storeFind, if_pos rfl]
  rw [insert_miss_A k.1 ttl k.2 now _ (by simpa [canonState] using hsz)
    (canonStore_miss (d0 :: done') ttl now 0 k.1 DNS_T_A hmiss _)]
  simp only [dns_cache_insert_link, canonState, List.length_cons]
  rw [if_pos (by push_cast; omega : (((done'.length + 1 : Nat) : Int) + 1 > c))]
  simp only [range_succ_append_head]
  simp only [dns_cache_release, hf0]
  rw [if_pos (show (mkEntry d0 ttl now).ref - 1 = 0 by simp [mkEntry])]
  simp only [dns_cache_delete_entry, Prod.mk.injEq, true_and]
  refine head_state_ext ?_ ?_ ?_ ?_ ?_ ?_ <;> dsimp only
  · rw [storeFree_append, canonStore, storeFree, if_pos rfl,
      canonStore_free_lt done' ttl now 1 0 (by omega), canonStore_append]
    simp [mkEntry, storeFree, Nat.add_comm]
  · conv_rhs => rw [List.range_succ, List.map_append, List.reverse_append]
    rw [removeId, if_neg (by omega), List.range_succ_eq_map, List.reverse_cons,
      removeId_append_of_not_mem (by simp), removeId_cons_self, List.append_nil]
    simp
  · conv_rhs => rw [List.range_succ, List.map_append]
    rw [List.range_succ_eq_map, List.cons_append, removeId_cons_self]
    simp
  · push_cast
    omega

theorem nodup_append_head_not_mem {α : Type} {l r : List α} {a : α}
    (h : (l ++ a :: r).Nodup) : a ∉ l := by
  intro hmem
  rcases List.nodup_append.mp h with ⟨h1, h2, hdisj⟩
  exact hdisj hmem (List.mem_cons_self a r)

/-- Folding a run of distinct-key A-record inserts over a canonical state:
the first inserts fill the table to capacity and the last one evicts id 0,
the first entry ever inserted. -/
theorem insertAll_canon (c ttl now : Int) (hsz : 0 < c) :
    ∀ (pend done : List (List Nat × List Nat)), pend ≠ [] →
      (((done ++ pend).map (fun q => List.take DNS_MAX_CNAME_LEN q.1)).Nodup) →
      (((done ++ pend).length : Int) = c + 1) →
      insertAll ttl now pend (canonState c done ttl now)
        = { store := canonStore ((done ++ pend).tail) ttl now 1,
            hashIds := (List.map Nat.succ (List.range ((done ++ pend).length - 1))).reverse,
            order := List.map Nat.succ (List.range ((done ++ pend).length - 1)),
            num := c, size := c, nextId := (done ++ pend).length } := by
  intro pend
  induction pend with
  | nil =>
    intro done hne hnd hlen
    exact absurd rfl hne
  | cons k rest ih =>
    intro done hne hnd hlen
    rw [insertAll]
    cases rest with
    | nil =>
      -- the c+1-st insert: eviction happens here
      cases done with
      | nil =>
        exfalso
        simp at hlen
        omega
      | cons d0 done' =>
        have hlen' : ((done'.length : Int) + 1) = c := by
          simp at hlen
          omega
        have hmiss : List.take DNS_MAX_CNAME_LEN k.1
            ∉ (d0 :: done').map (fun q => List.take DNS_MAX_CNAME_LEN q.1) := by
          rw [List.map_append] at hnd
          exact nodup_append_head_not_mem hnd
        rw [insert_canon_evict c d0 k done' ttl now hsz hlen' hmiss]
        rw [insertAll]
        refine head_state_ext ?_ ?_ ?_ ?_ ?_ ?_ <;>
          simp [List.cons_append, List.tail_cons]
    | cons k2 r2 =>
      have hlt : ((done.length : Int) + 1) ≤ c := by
        simp at hlen
        omega
      have hmiss : List.take DNS_MAX_CNAME_LEN k.1
          ∉ done.map (fun q => List.take DNS_MAX_CNAME_LEN q.1) := by
        rw [List.map_append, List.map_cons] at hnd
        exact nodup_append_head_not_mem hnd
      rw [insert_canon_step c done k ttl now hsz hlt hmiss]
      have hres := ih (done ++ [k]) (List.cons_ne_nil _ _)
        (by rw [List.append_assoc, List.singleton_append]; exact hnd)
        (by rw [List.append_assoc, List.singleton_append]; exact hlen)
      rw [List.append_assoc, List.singleton_append] at hres
      exact hres

/-- C6: with capacity `c > 0` and `c+1` successful A-record inserts of
distinct keys (same clock, nonnegative ttl, no `update` calls, no
outstanding handles), the entry evicted by the last insert is the first one
inserted: the final recency list holds exactly ids `1..c`, a `get` on the
first key misses, and a `get` on every later key hits. -/
theorem C6_eviction_order_fifo (c : Nat) (hc : 0 < c) (k0 : List Nat × List Nat)
    (rest : List (List Nat × List Nat)) (hlen : rest.length = c)
    (ttl now : Int) (httl : 0 ≤ ttl)
    (hnd : ((k0 :: rest).map (fun q => List.take DNS_MAX_CNAME_LEN q.1)).Nodup) :
    (insertAll ttl now (k0 :: rest) (dns_cache_init (c : Int))).order
      = List.map Nat.succ (List.range c) ∧
    (dns_cache_get k0.1 DNS_T_A now
      (insertAll ttl now (k0 :: rest) (dns_cache_init (c : Int)))).1 = none ∧
    ∀ p ∈ rest,
      ((dns_cache_get p.1 DNS_T_A now
        (insertAll ttl now (k0 :: rest) (dns_cache_init (c : Int)))).1).isSome := by
  have hcz : (0 : Int) < (c : Int) := by exact_mod_cast hc
  have hinit : canonState (c : Int) [] ttl now = dns_cache_init (c : Int) := by
    refine head_state_ext ?_ ?_ ?_ ?_ ?_ ?_ <;> simp [canonState, canonStore, dns_cache_init]
  have hfin := insertAll_canon (c : Int) ttl now hcz (k0 :: rest) []
    (List.cons_ne_nil _ _) (by simpa using hnd)
    (by simp [hlen])
  rw [hinit] at hfin
  simp only [List.nil_append, List.length_cons, List.tail_cons, hlen,
    Nat.add_sub_cancel] at hfin
  have hmiss0 : List.take DNS_MAX_CNAME_LEN k0.1
      ∉ rest.map (fun q => List.take DNS_MAX_CNAME_LEN q.1) := by
    rw [List.map_cons] at hnd
    exact (List.nodup_cons.mp hnd).1
  refine ⟨?_, ?_, ?_⟩
  · rw [hfin]
  · rw [hfin]
    simp only [dns_cache_get, if_neg (by omega : ¬((c : Int) ≤ 0)),
      canonStore_miss rest ttl now 1 k0.1 DNS_T_A hmiss0]
  · intro p hp
    obtain ⟨⟨i, hi⟩, hpi⟩ := List.mem_iff_get.mp hp
    have hfind : storeFind (canonStore rest ttl now 1) (1 + i)
        = some (mkEntry p ttl now) := by
      rw [← hpi]
      exact canonStore_find rest ttl now 1 i hi
    have hidmem : (1 + i) ∈ (List.map Nat.succ (List.range c)).reverse := by
      simp only [List.mem_reverse, List.mem_map, List.mem_range]
      exact ⟨i, by omega, by omega⟩
    have hsome := @hashFind_isSome (canonStore rest ttl now 1)
      ((List.map Nat.succ (List.range c)).reverse) p.1 DNS_T_A (1 + i)
      (mkEntry p ttl now) hidmem hfind (by simp [mkEntry]) (by simp [mkEntry])
    rw [hfin]
    rcases hf : hashFind (canonStore rest ttl now 1)
        ((List.map Nat.succ (List.range c)).reverse) p.1 DNS_T_A with _ | id'
    · rw [hf] at hsome
      simp at hsome
    · obtain ⟨hmemids, e, hse, hq, hd⟩ := hashFind_some hf
      obtain ⟨q, hq', he⟩ := canonStore_mem (storeFind_mem hse)
      have hfresh : ¬(now - e.insert_time > e.ttl) := by
        have he' : e = mkEntry q ttl now := he
        rw [he']
        simp only [mkEntry]
        omega
      simp only [dns_cache_get, if_neg (by omega : ¬((c : Int) ≤ 0)), hf, hse,
        if_neg hfresh, Option.isSome_some]

/-- Witness for C6: the spec scenario — `init(2)`, insert "a.com", "b.com",
"c.com" (bytes of the ASCII names) with ttl 10 at the same clock; "a.com"
is evicted, "b.com" and "c.com" hit. -/
theorem C6_eviction_order_fifo_witness :
    (insertAll 10 0 [([97, 46, 99, 111, 109], [1, 2, 3, 4]),
                     ([98, 46, 99, 111, 109], [5, 6, 7, 8]),
                     ([99, 46, 99, 111, 109], [9, 9, 9, 9])]
      (dns_cache_init ((2 : Nat) : Int))).order = List.map Nat.succ (List.range 2) ∧
    (dns_cache_get [97, 46, 99, 111, 109] DNS_T_A 0
      (insertAll 10 0 [([97, 46, 99, 111, 109], [1, 2, 3, 4]),
                       ([98, 46, 99, 111, 109], [5, 6, 7, 8]),
                       ([99, 46, 99, 111, 109], [9, 9, 9, 9])]
        (dns_cache_init ((2 : Nat) : Int)))).1 = none ∧
    ∀ p ∈ [([98, 46, 99, 111, 109], [5, 6, 7, 8]),
           ([99, 46, 99, 111, 109], [9, 9, 9, 9])],
      ((dns_cache_get p.1 DNS_T_A 0
        (insertAll 10 0 [([97, 46, 99, 111, 109], [1, 2, 3, 4]),
                         ([98, 46, 99, 111, 109], [5, 6, 7, 8]),
                         ([99, 46, 99, 111, 109], [9, 9, 9, 9])]
          (dns_cache_init ((2 : Nat) : Int)))).1).isSome :=
  C6_eviction_order_fifo 2 (by decide) ([97, 46, 99, 111, 109], [1, 2, 3, 4])
    [([98, 46, 99, 111, 109], [5, 6, 7, 8]), ([99, 46, 99, 111, 109], [9, 9, 9, 9])]
    (by decide) 10 0 (by decide) (by decide)

theorem release_store_find_ne {id id' : Nat} (t : DnsCacheHead) (h : id' ≠ id) :
    storeFind (dns_cache_release id t).store id' = storeFind t.store id' := by
  unfold dns_cache_release
  rcases storeFind t.store id with _ | e
  · rfl
  · dsimp only
    split
    · exact storeFind_free_ne h
    · exact storeFind_update_ne h

/-- Releasing the table's unit on an already-unlinked entry: the lists are
untouched and the heap binding is decremented or freed. -/
theorem release_state_facts (id : Nat) (t : DnsCacheHead) (e : DnsCacheEntry)
    (hse : storeFind t.store id = some e)
    (hno : id ∉ t.order) (hnh : id ∉ t.hashIds) :
    (dns_cache_release id t).order = t.order ∧
    (dns_cache_release id t).hashIds = t.hashIds ∧
    storeFind (dns_cache_release id t).store id =
      (if e.ref - 1 = 0 then none else some { e with ref := e.ref - 1 }) := by
  unfold dns_cache_release
  rw [hse]
  dsimp only
  by_cases hz : e.ref - 1 = 0
  · rw [if_pos hz, if_pos hz]
    unfold dns_cache_delete_entry
    exact ⟨removeId_of_not_mem hno, removeId_of_not_mem hnh, storeFind_free_self⟩
  · rw [if_neg hz, if_neg hz]
    exact ⟨rfl, rfl, storeFind_update_self _ hse⟩

theorem invalidateLoop_store_untouched (now : Int) :
    ∀ (ids : List Nat) (t : DnsCacheHead) (id : Nat), id ∉ ids →
      storeFind (invalidateLoop now ids t).store id = storeFind t.store id := by
  intro ids
  induction ids with
  | nil =>
    intro t id h
    rfl
  | cons id0 rest ih =>
    intro t id h
    simp only [List.mem_cons] at h
    push_neg at h
    rw [invalidateLoop]
    rcases hs : storeFind t.store id0 with _ | e0
    · rfl
    · dsimp only
      split
      · rfl
      · rw [ih _ id h.2, release_store_find_ne _ h.1]

theorem takeWhile_congr_local (p q : Nat → Bool) :
    ∀ (l : List Nat), (∀ a ∈ l, p a = q a) → l.takeWhile p = l.takeWhile q := by
  intro l
  induction l with
  | nil => intro h; rfl
  | cons a t ih =>
    intro h
    rw [List.takeWhile_cons, List.takeWhile_cons, h a (List.mem_cons_self _ _),
      ih (fun b hb => h b (List.mem_cons_of_mem _ hb))]

theorem dropWhile_congr_local (p q : Nat → Bool) :
    ∀ (l : List Nat), (∀ a ∈ l, p a = q a) → l.dropWhile p = l.dropWhile q := by
  intro l
  induction l with
  | nil => intro h; rfl
  | cons a t ih =>
    intro h
    rw [List.dropWhile_cons, List.dropWhile_cons, h a (List.mem_cons_self _ _),
      ih (fun b hb => h b (List.mem_cons_of_mem _ hb))]

/-- Full characterization of the sweep loop on a well-formed state: it
removes exactly the maximal expired prefix of the recency list (in
head-to-tail order), releases each of those entries, and leaves the rest —
from the first still-fresh entry to the tail — unexamined and unchanged. -/
theorem invalidateLoop_spec (now : Int) :
    ∀ (ids : List Nat) (s : DnsCacheHead),
      s.order = ids →
      ids.Nodup →
      s.hashIds.Nodup →
      (∀ id ∈ ids, id ∈ s.hashIds) →
      (∀ id ∈ ids, (storeFind s.store id).isSome) →
      (invalidateLoop now ids s).order = ids.dropWhile (expiredB s.store now) ∧
      (∀ id ∈ ids.takeWhile (expiredB s.store now),
        id ∉ (invalidateLoop now ids s).hashIds ∧
        ∃ e, storeFind s.store id = some e ∧
          storeFind (invalidateLoop now ids s).store id =
            (if e.ref - 1 = 0 then none else some { e with ref := e.ref - 1 })) ∧
      (∀ id ∈ ids.dropWhile (expiredB s.store now),
        storeFind (invalidateLoop now ids s).store id = storeFind s.store id ∧
        id ∈ (invalidateLoop now ids s).hashIds) := by
  intro ids
  induction ids with
  | nil =>
    intro s horder hnd hh hsub hwf
    refine ⟨by simp [invalidateLoop, horder], ?_, ?_⟩
    · intro id h
      simp at h
    · intro id h
      simp at h
  | cons id rest ih =>
    intro s horder hnd hh hsub hwf
    obtain ⟨e, hse⟩ := Option.isSome_iff_exists.mp (hwf id (List.mem_cons_self _ _))
    have hidrest : id ∉ rest := (List.nodup_cons.mp hnd).1
    have hndrest : rest.Nodup := (List.nodup_cons.mp hnd).2
    by_cases hfresh : e.insert_time + e.ttl - now > 0
    · -- the head is still fresh: the loop stops at once and removes nothing
      have hpb : ¬(expiredB s.store now id = true) := by
        simp only [expiredB, hse]
        simpa using hfresh
      have hstop : invalidateLoop now (id :: rest) s = s := by
        simp only [invalidateLoop, hse, if_pos hfresh]
      rw [hstop, List.dropWhile_cons_of_neg hpb, List.takeWhile_cons_of_neg hpb]
      refine ⟨horder, ?_, ?_⟩
      · intro id0 h0
        simp at h0
      · intro id0 h0
        exact ⟨rfl, hsub id0 h0⟩
    · -- the head is expired: it is unlinked, released, and the loop recurses
      have hpb : expiredB s.store now id = true := by
        simp only [expiredB, hse]
        simpa using hfresh
      obtain ⟨s2, hs2def⟩ : ∃ s2, s2 = dns_cache_release id
          { s with hashIds := removeId s.hashIds id, order := removeId s.order id } :=
        ⟨_, rfl⟩
      have hstep : invalidateLoop now (id :: rest) s = invalidateLoop now rest s2 := by
        rw [hs2def]
        simp only [invalidateLoop, hse, if_neg hfresh]
      have hOrdMid : removeId s.order id = rest := by
        rw [horder]
        exact removeId_cons_self
      obtain ⟨hRO, hRH, hRF⟩ := release_state_facts id
        { s with hashIds := removeId s.hashIds id, order := removeId s.order id } e hse
        (by dsimp only; rw [hOrdMid]; exact hidrest)
        (by dsimp only; exact not_mem_removeId_self hh)
      have hs2order : s2.order = rest := by
        rw [hs2def, hRO]
        exact hOrdMid
      have hs2hash : s2.hashIds = removeId s.hashIds id := by
        rw [hs2def, hRH]
      have hs2find_ne : ∀ id', id' ≠ id → storeFind s2.store id' = storeFind s.store id' := by
        intro id' h
        rw [hs2def]
        exact release_store_find_ne _ h
      have hs2hashnd : s2.hashIds.Nodup := by
        rw [hs2hash]
        exact (removeId_sublist _ _).nodup hh
      have hs2sub : ∀ id' ∈ rest, id' ∈ s2.hashIds := by
        intro id' h'
        rw [hs2hash]
        have hne : id' ≠ id := fun hc => hidrest (hc ▸ h')
        exact (mem_removeId_of_ne hne).mpr (hsub id' (List.mem_cons_of_mem _ h'))
      have hs2wf : ∀ id' ∈ rest, (storeFind s2.store id').isSome := by
        intro id' h'
        rw [hs2find_ne id' (fun hc => hidrest (hc ▸ h'))]
        exact hwf id' (List.mem_cons_of_mem _ h')
      have hcongrT : rest.takeWhile (expiredB s2.store now)
          = rest.takeWhile (expiredB s.store now) := by
        refine takeWhile_congr_local _ _ rest ?_
        intro a ha
        simp only [expiredB, hs2find_ne a (fun hc => hidrest (hc ▸ ha))]
      have hcongrD : rest.dropWhile (expiredB s2.store now)
          = rest.dropWhile (expiredB s.store now) := by
        refine dropWhile_congr_local _ _ rest ?_
        intro a ha
        simp only [expiredB, hs2find_ne a (fun hc => hidrest (hc ▸ ha))]
      obtain ⟨ihO, ihT, ihD⟩ := ih s2 hs2order hndrest hs2hashnd hs2sub hs2wf
      rw [hstep, List.dropWhile_cons_of_pos hpb, List.takeWhile_cons_of_pos hpb]
      refine ⟨?_, ?_, ?_⟩
      · rw [ihO, hcongrD]
      · intro id0 h0
        rcases List.mem_cons.mp h0 with h1 | h1
        · subst h1
          constructor
          · intro hmem
            have h2 := (invalidateLoop_hashIds_sublist now rest s2).subset hmem
            rw [hs2hash] at h2
            exact not_mem_removeId_self hh h2
          · refine ⟨e, hse, ?_⟩
            rw [invalidateLoop_store_untouched now rest s2 id0 hidrest, hs2def]
            exact hRF
        · rw [← hcongrT] at h1
          obtain ⟨hni, e0, he0, hres⟩ := ihT id0 h1
          have hne : id0 ≠ id := by
            intro hc
            exact hidrest (hc ▸ (List.takeWhile_sublist _).subset h1)
          rw [hs2find_ne id0 hne] at he0
          exact ⟨hni, e0, he0, hres⟩
      · intro id0 h0
        rw [← hcongrD] at h0
        obtain ⟨hfind, hmem⟩ := ihD id0 h0
        have hne : id0 ≠ id := by
          intro hc
          exact hidrest (hc ▸ (List.dropWhile_sublist _).subset h0)
        rw [hs2find_ne id0 hne] at hfind
        exact ⟨hfind, hmem⟩

theorem head_dropWhile_not (p : Nat → Bool) :
    ∀ (l : List Nat) (a : Nat), (l.dropWhile p).head? = some a → p a = false := by
  intro l
  induction l with
  | nil =>
    intro a h
    simp at h
  | cons x xs ih =>
    intro a h
    rw [List.dropWhile_cons] at h
    by_cases hp : p x
    · rw [if_pos hp] at h
      exact ih a h
    · rw [if_neg hp] at h
      rw [List.head?_cons] at h
      cases h
      simpa using hp

/-- C7: on a well-formed state, `dns_cache_invalidate` walks the recency
list from the head in order: every entry of the maximal expired prefix
(`insert_time + ttl - now ≤ 0`) is unlinked from the list and the hash and
released (its refcount drops by the table's unit; it is freed when that was
the last unit), the scan stops at the first entry whose remaining TTL is
positive, and every entry from there to the tail keeps its heap binding and
its membership in both structures, untouched by the pass. -/
theorem C7_invalidate_stops_at_first_fresh (now : Int) (s : DnsCacheHead)
    (hsz : 0 < s.size)
    (hnd : s.order.Nodup)
    (hh : s.hashIds.Nodup)
    (hsub : ∀ id ∈ s.order, id ∈ s.hashIds)
    (hwf : ∀ id ∈ s.order, (storeFind s.store id).isSome) :
    (dns_cache_invalidate now s).order = s.order.dropWhile (expiredB s.store now) ∧
    (∀ id ∈ s.order.takeWhile (expiredB s.store now),
      expiredB s.store now id = true ∧
      id ∉ (dns_cache_invalidate now s).order ∧
      id ∉ (dns_cache_invalidate now s).hashIds ∧
      ∃ e, storeFind s.store id = some e ∧
        storeFind (dns_cache_invalidate now s).store id =
          (if e.ref - 1 = 0 then none else some { e with ref := e.ref - 1 })) ∧
    (∀ id ∈ s.order.dropWhile (expiredB s.store now),
      storeFind (dns_cache_invalidate now s).store id = storeFind s.store id ∧
      id ∈ (dns_cache_invalidate now s).order ∧
      id ∈ (dns_cache_invalidate now s).hashIds) ∧
    (∀ id, (s.order.dropWhile (expiredB s.store now)).head? = some id →
      expiredB s.store now id = false) := by
  have hred : dns_cache_invalidate now s = invalidateLoop now s.order s := by
    rw [dns_cache_invalidate, if_neg (by omega)]
  obtain ⟨hO, hT, hD⟩ := invalidateLoop_spec now s.order s rfl hnd hh hsub hwf
  rw [hred]
  have hsplit : s.order.takeWhile (expiredB s.store now)
      ++ s.order.dropWhile (expiredB s.store now) = s.order :=
    List.takeWhile_append_dropWhile _ _
  refine ⟨hO, ?_, ?_, ?_⟩
  · intro id h0
    obtain ⟨hni, hrel⟩ := hT id h0
    refine ⟨List.mem_takeWhile_imp h0, ?_, hni, hrel⟩
    rw [hO]
    have hnd2 := hnd
    rw [← hsplit] at hnd2
    rcases List.nodup_append.mp hnd2 with ⟨_, _, hdisj⟩
    exact fun hmem => hdisj h0 hmem
  · intro id h0
    obtain ⟨hfind, hmem⟩ := hD id h0
    refine ⟨hfind, ?_, hmem⟩
    rw [hO]
    exact h0
  · intro id h0
    exact head_dropWhile_not _ s.order id h0

/-- Witness for C7: "a" (ttl 1) then "b" (ttl 99) inserted at `t=0`, swept at
`t=50`: the expired prefix is exactly entry 0, the scan stops at entry 1. -/
theorem C7_invalidate_witness :
    (dns_cache_invalidate 50
      ((dns_cache_insert [98] 99 DNS_T_A [5, 6, 7, 8] 4 0
        ((dns_cache_insert [97] 1 DNS_T_A [1, 2, 3, 4] 4 0 (dns_cache_init 10)).2)).2)).order =
      ((dns_cache_insert [98] 99 DNS_T_A [5, 6, 7, 8] 4 0
        ((dns_cache_insert [97] 1 DNS_T_A [1, 2, 3, 4] 4 0 (dns_cache_init 10)).2)).2).order.dropWhile
        (expiredB ((dns_cache_insert [98] 99 DNS_T_A [5, 6, 7, 8] 4 0
          ((dns_cache_insert [97] 1 DNS_T_A [1, 2, 3, 4] 4 0 (dns_cache_init 10)).2)).2).store 50) ∧
    (∀ id ∈ ((dns_cache_insert [98] 99 DNS_T_A [5, 6, 7, 8] 4 0
        ((dns_cache_insert [97] 1 DNS_T_A [1, 2, 3, 4] 4 0 (dns_cache_init 10)).2)).2).order.takeWhile
        (expiredB ((dns_cache_insert [98] 99 DNS_T_A [5, 6, 7, 8] 4 0
          ((dns_cache_insert [97] 1 DNS_T_A [1, 2, 3, 4] 4 0 (dns_cache_init 10)).2)).2).store 50),
      expiredB ((dns_cache_insert [98] 99 DNS_T_A [5, 6, 7, 8] 4 0
        ((dns_cache_insert [97] 1 DNS_T_A [1, 2, 3, 4] 4 0 (dns_cache_init 10)).2)).2).store 50 id = true ∧
      id ∉ (dns_cache_invalidate 50
        ((dns_cache_insert [98] 99 DNS_T_A [5, 6, 7, 8] 4 0
          ((dns_cache_insert [97] 1 DNS_T_A [1, 2, 3, 4] 4 0 (dns_cache_init 10)).2)).2)).order ∧
      id ∉ (dns_cache_invalidate 50
        ((dns_cache_insert [98] 99 DNS_T_A [5, 6, 7, 8] 4 0
          ((dns_cache_insert [97] 1 DNS_T_A [1, 2, 3, 4] 4 0 (dns_cache_init 10)).2)).2)).hashIds ∧
      ∃ e, storeFind ((dns_cache_insert [98] 99 DNS_T_A [5, 6, 7, 8] 4 0
          ((dns_cache_insert [97] 1 DNS_T_A [1, 2, 3, 4] 4 0 (dns_cache_init 10)).2)).2).store id
            = some e ∧
        storeFind (dns_cache_invalidate 50
          ((dns_cache_insert [98] 99 DNS_T_A [5, 6, 7, 8] 4 0
            ((dns_cache_insert [97] 1 DNS_T_A [1, 2, 3, 4] 4 0 (dns_cache_init 10)).2)).2)).store id
          = (if e.ref - 1 = 0 then none else some { e with ref := e.ref - 1 })) ∧
    (∀ id ∈ ((dns_cache_insert [98] 99 DNS_T_A [5, 6, 7, 8] 4 0
        ((dns_cache_insert [97] 1 DNS_T_A [1, 2, 3, 4] 4 0 (dns_cache_init 10)).2)).2).order.dropWhile
        (expiredB ((dns_cache_insert [98] 99 DNS_T_A [5, 6, 7, 8] 4 0
          ((dns_cache_insert [97] 1 DNS_T_A [1, 2, 3, 4] 4 0 (dns_cache_init 10)).2)).2).store 50),
      storeFind (dns_cache_invalidate 50
        ((dns_cache_insert [98] 99 DNS_T_A [5, 6, 7, 8] 4 0
          ((dns_cache_insert [97] 1 DNS_T_A [1, 2, 3, 4] 4 0 (dns_cache_init 10)).2)).2)).store id
        = storeFind ((dns_cache_insert [98] 99 DNS_T_A [5, 6, 7, 8] 4 0
          ((dns_cache_insert [97] 1 DNS_T_A [1, 2, 3, 4] 4 0 (dns_cache_init 10)).2)).2).store id ∧
      id ∈ (dns_cache_invalidate 50
        ((dns_cache_insert [98] 99 DNS_T_A [5, 6, 7, 8] 4 0
          ((dns_cache_insert [97] 1 DNS_T_A [1, 2, 3, 4] 4 0 (dns_cache_init 10)).2)).2)).order ∧
      id ∈ (dns_cache_invalidate 50
        ((dns_cache_insert [98] 99 DNS_T_A [5, 6, 7, 8] 4 0
          ((dns_cache_insert [97] 1 DNS_T_A [1, 2, 3, 4] 4 0 (dns_cache_init 10)).2)).2)).hashIds) ∧
    (∀ id, (((dns_cache_insert [98] 99 DNS_T_A [5, 6, 7, 8] 4 0
        ((dns_cache_insert [97] 1 DNS_T_A [1, 2, 3, 4] 4 0 (dns_cache_init 10)).2)).2).order.dropWhile
        (expiredB ((dns_cache_insert [98] 99 DNS_T_A [5, 6, 7, 8] 4 0
          ((dns_cache_insert [97] 1 DNS_T_A [1, 2, 3, 4] 4 0 (dns_cache_init 10)).2)).2).store 50)).head?
          = some id →
      expiredB ((dns_cache_insert [98] 99 DNS_T_A [5, 6, 7, 8] 4 0
        ((dns_cache_insert [97] 1 DNS_T_A [1, 2, 3, 4] 4 0 (dns_cache_init 10)).2)).2).store 50 id
        = false) :=
  C7_invalidate_stops_at_first_fresh 50
    ((dns_cache_insert [98] 99 DNS_T_A [5, 6, 7, 8] 4 0
      ((dns_cache_insert [97] 1 DNS_T_A [1, 2, 3, 4] 4 0 (dns_cache_init 10)).2)).2)
    (by decide) (by decide) (by decide) (by decide) (by decide)
